import Mathlib

/-!
Verification development for the ZpoolScrubMonitor repository.

The Python sources are embedded shallowly:
  * text is modelled as `List Char` (Python `str`);
  * Python floats (scan percentages, timestamps in seconds) are modelled as
    exact rationals `ℚ`;
  * fallible operations return `Except`/`Option`;
  * the I/O boundary (subprocess output, file contents, wall-clock readings)
    is passed in as explicit arguments.
-/

namespace ZpoolScrubMonitor

/-- `zfs_helpers.ScrubStatus` (src/zfs_helpers.py, lines 13-16). -/
inductive ScrubStatus
  | SCANNING
  | NO_ERRORS
  | ERRORS
deriving DecidableEq, Repr

/-- The second component of the tuple returned by `get_scrub_status`
(`float | str` in the Python signature): a percentage for `SCANNING`,
the raw `zpool status` output otherwise. -/
inductive ScanDetail
  | pct (p : ℚ)
  | raw (s : List Char)
deriving DecidableEq, Repr

/-- The `RuntimeError` raised by `get_scrub_status` when the status text has
an unexpected format (the spec's `MalformedStatusError`). -/
inductive StatusFailure
  | malformed
deriving DecidableEq, Repr

/-- ASCII digit test: the `\d` character class of the percentage pattern. -/
def isDigitCh (c : Char) : Bool := 48 ≤ c.toNat && c.toNat ≤ 57

/-- Numeric value of a digit character. -/
def digitVal (c : Char) : ℚ := ((c.toNat - 48 : ℕ) : ℚ)

/-- Match the suffix `\d{1,2}%` of the percentage pattern at the head of the
input, greedily (two fractional digits are preferred over one, as in the
Python regex engine).  Returns the matched digits and the input after the
`%` sign. -/
def matchFracPct : List Char → Option (List Char × List Char)
  | c :: d :: e :: rest =>
    if isDigitCh c then
      if isDigitCh d then
        if e = '%' then some ([c, d], rest) else none
      else if d = '%' then some ([c], e :: rest)
      else none
    else none
  | [c, d] => if isDigitCh c ∧ d = '%' then some ([c], []) else none
  | _ => none

/-- Match the pattern `(\d{1,2}\.\d{1,2})%` (src/zfs_helpers.py, line 36) at
the head of the input, with the backtracking order of the Python engine:
two integer digits are tried before one.  Returns the captured group (the
number without the `%`) and the input after the match. -/
def matchPctAt : List Char → Option (List Char × List Char)
  | a :: b :: c :: rest =>
    if isDigitCh a then
      if isDigitCh b then
        if c = '.' then
          match matchFracPct rest with
          | some (fr, rem) => some (a :: b :: '.' :: fr, rem)
          | none => none
        else none
      else if b = '.' then
        match matchFracPct (c :: rest) with
        | some (fr, rem) => some (a :: '.' :: fr, rem)
        | none => none
      else none
    else none
  | _ => none

/-- `re.findall(r"(\d{1,2}\.\d{1,2})%", text)`: scan left to right for
non-overlapping matches, resuming after each match.  The fuel argument is
an upper bound on the number of scanning steps; `findallPct` supplies the
input length, which always suffices because every step consumes at least
one character. -/
def findallPctAux (fuel : ℕ) : List Char → List (List Char) :=
  match fuel with
  | 0 => fun _ => []
  | fuel + 1 => fun cs =>
    match cs with
    | [] => []
    | c :: cs2 =>
      match matchPctAt (c :: cs2) with
      | some (g, rest) => g :: findallPctAux fuel rest
      | none => findallPctAux fuel cs2

/-- All captured percentage groups of the status text, leftmost first. -/
def findallPct (cs : List Char) : List (List Char) := findallPctAux cs.length cs

/-- `float()` applied to a captured percentage group.  A captured group is
`ii.ff`, `ii.f`, `i.ff` or `i.f` (digits around a dot); the two length-4
shapes are told apart by the position of the dot.  The value is exact over
`ℚ`. -/
def pctVal : List Char → ℚ
  | [a, b, _, c, d] => 10 * digitVal a + digitVal b + digitVal c / 10 + digitVal d / 100
  | [a, b, c, d] =>
    if b = '.' then digitVal a + digitVal c / 10 + digitVal d / 100
    else 10 * digitVal a + digitVal b + digitVal d / 10
  | [a, _, c] => digitVal a + digitVal c / 10
  | _ => 0

/-- Python's `\s` class (ASCII part), used by the `errors:` regex. -/
def pyIsSpace (c : Char) : Bool :=
  c == ' ' || c == '\t' || c == '\n' || c == '\r' || c == '\x0b' || c == '\x0c'

/-- Match `errors:` case-insensitively at the head of the input; on success
return the remaining input. -/
def matchErrorsColon : List Char → Option (List Char)
  | c1 :: c2 :: c3 :: c4 :: c5 :: c6 :: c7 :: rest =>
    if c1.toLower = 'e' ∧ c2.toLower = 'r' ∧ c3.toLower = 'r' ∧ c4.toLower = 'o'
        ∧ c5.toLower = 'r' ∧ c6.toLower = 's' ∧ c7 = ':' then some rest
    else none
  | _ => none

/-- The group captured by `\s*(.*)\s*$` after `errors:`: the Python engine
first consumes the maximal whitespace run (which may cross line breaks,
since `\s` matches newlines), then `(.*)` greedily captures up to the next
newline, after which `\s*$` always succeeds with an empty second
whitespace run.  So the capture is the text after `errors:`, stripped of
leading whitespace, up to the end of that line. -/
def captureErrorsDetail (rest : List Char) : List Char :=
  (rest.dropWhile (fun c => pyIsSpace c)).takeWhile (fun c => c != '\n')

/-- `re.search(r"^errors:\s*(.*)\s*$", text, re.IGNORECASE | re.MULTILINE)`
(src/zfs_helpers.py, line 44): find the leftmost line start at which
`errors:` matches case-insensitively and return the captured group.  The
Boolean argument records whether the current position is a line start
(position 0 or just after a newline). -/
def findErrorsFrom (atLineStart : Bool) : List Char → Option (List Char)
  | [] => none
  | c :: cs =>
    match (if atLineStart then matchErrorsColon (c :: cs) else none) with
    | some rest => some (captureErrorsDetail rest)
    | none => findErrorsFrom (c == '\n') cs

/-- The captured remainder of the first `errors:` line, if any. -/
def findErrorsLine (cs : List Char) : Option (List Char) := findErrorsFrom true cs

/-- `_err_str.lower().startswith("no ")` (src/zfs_helpers.py, line 50). -/
def startsWithNo : List Char → Bool
  | n :: o :: sp :: _ => n.toLower = 'n' && o.toLower = 'o' && sp = ' '
  | _ => false

/-- `zfs_helpers.get_scrub_status` (src/zfs_helpers.py, lines 30-53),
restricted to its pure part: the subprocess has exited with status 0 and
produced `stdout`.  The source checks `len(_matches) > 1` first, then
`len(_matches) == 1`, then falls through to the `errors:` search; the
three-way match below is the same case split. -/
def get_scrub_status (stdout : List Char) :
    Except StatusFailure (ScrubStatus × ScanDetail) :=
  match findallPct stdout with
  | [g] => .ok (.SCANNING, .pct (pctVal g))
  | [] =>
    match findErrorsLine stdout with
    | none => .error .malformed
    | some g =>
      if startsWithNo g then .ok (.NO_ERRORS, .raw stdout)
      else .ok (.ERRORS, .raw stdout)
  | _ => .error .malformed

example : findallPct "scan: scrub in progress\n  12.34% done".data = ["12.34".data] := by decide
example : get_scrub_status "scan: 100.00% done".data
    = .ok (.SCANNING, .pct (pctVal "00.00".data)) := rfl
example : pctVal "12.34".data = mkRat 1234 100 := by
  show 10 * digitVal '1' + digitVal '2' + digitVal '3' / 10 + digitVal '4' / 100
      = mkRat 1234 100
  have h1 : digitVal '1' = ((1 : ℕ) : ℚ) := rfl
  have h2 : digitVal '2' = ((2 : ℕ) : ℚ) := rfl
  have h3 : digitVal '3' = ((3 : ℕ) : ℚ) := rfl
  have h4 : digitVal '4' = ((4 : ℕ) : ℚ) := rfl
  rw [h1, h2, h3, h4]
  norm_num
example :
    get_scrub_status "errors: No known data errors".data
      = .ok (.NO_ERRORS, .raw "errors: No known data errors".data) := rfl
example : findErrorsLine "errors: No known data errors".data = some "No known data errors".data := by
  decide

/-- `main.is_execution_necessary` (src/main.py, lines 62-76).  Timestamps are
seconds as exact rationals; `last` is the result of
`read_last_execution_time` (src/main.py, lines 42-50), which returns `None`
-- here `none` -- whenever the record file is absent or unreadable.  The
`timedelta` constants are `weeks=1` = 604800 s, `weeks=2` = 1209600 s,
`days=1` = 86400 s, `days=30` = 2592000 s. -/
def is_execution_necessary (execution_after : String) (last : Option ℚ) (now : ℚ) : Bool :=
  match last with
  | none => true
  | some t =>
    let d := now - t
    if execution_after = "week" ∧ d < 604800 then false
    else if execution_after = "2weeks" ∧ d < 1209600 then false
    else if execution_after = "day" ∧ d < 86400 then false
    else if execution_after = "month" ∧ d < 2592000 then false
    else true

/-- The fixed duration of each named interval policy (spec §3: `day`, `week`,
`2weeks`, `month` mapped to fixed durations), in seconds. -/
def policyDuration : String → Option ℚ
  | "day" => some 86400
  | "week" => some 604800
  | "2weeks" => some 1209600
  | "month" => some 2592000
  | _ => none

/-- Outcome of the `__main__` block of src/main.py (lines 116-164): either an
explicit `exit(code)`, or control reaching the
`_run_and_monitor_scrub(...)` call (line 163) followed by
`write_last_execution_time()` (line 164) with the selected pool. -/
inductive MainOutcome
  | exitWith (code : ℕ)
  | runScrub (zpool : String)
deriving DecidableEq, Repr

/-- The decision sequence of the `__main__` block (src/main.py, lines
116-164), with every I/O observation passed in: whether each Telegram flag
was given, the process-table check, the discovered pool list, the
`util.IS_DEBUGGER` / `util.IS_SUDO` flags, the optional interval policy,
the persisted record and current time, and the `--zpool` argument.  Note
that the branch at lines 160-161 only logs when the selected pool is not
in the discovered list; control falls through to line 163. -/
def mainFlow (tgTokenGiven tgChatGiven : Bool) (alreadyRunning : Bool)
    (allZpools : List String) (isDebugger isSudo : Bool)
    (executionAfter : Option String) (lastExec : Option ℚ) (now : ℚ)
    (zpoolArg : Option String) : MainOutcome :=
  let tgCount : ℕ := (if tgTokenGiven then 1 else 0) + (if tgChatGiven then 1 else 0)
  if tgCount ≠ 0 ∧ tgCount ≠ 2 then .exitWith 1
  else if alreadyRunning then .exitWith 0
  else if allZpools.length = 0 then .exitWith 0
  else if isDebugger = false ∧ isSudo = false then .exitWith 1
  else if (match executionAfter with
           | some p => !(is_execution_necessary p lastExec now)
           | none => false) then .exitWith 0
  else
    let zpool := match zpoolArg with
      | some z => z
      | none => allZpools.headI
    .runScrub zpool

/-- The module-level names defined by src/zfs_helpers.py (imports and the
logger aside). -/
def zfsHelpersModuleAttrs : List String :=
  ["ScrubStatus", "get_all_zpools", "get_scrub_status", "run_scrub"]

/-- The exception through which `_run_and_monitor_scrub` fails before the
monitor loop. -/
inductive PyExc
  | attributeError
deriving DecidableEq, Repr

/-- The percentage carried by a `SCANNING` observation (`_addval` at
src/main.py, line 89; always the `pct` case for outputs of
`get_scrub_status` with status `SCANNING`). -/
def detailPct : ScanDetail → ℚ
  | .pct p => p
  | .raw _ => 0

/-- The polling loop of `_run_and_monitor_scrub` (src/main.py, lines 85-90)
over a finite trace of `get_scrub_status` results.  The second argument is
the progress bar total `_pbar.n`; `_pbar.update(x)` adds `x` to it, so
line 89 performs `n := n + (_addval - n)`.  Returns the totals after each
update, the final `_pbar.n`, and the first non-`SCANNING` observation (at
which the loop breaks), if the trace reaches one. -/
def scrubLoopAux : List (ScrubStatus × ScanDetail) → ℚ →
    List ℚ × ℚ × Option (ScrubStatus × ScanDetail)
  | [], n => ([], n, none)
  | (s, d) :: rest, n =>
    if s = .SCANNING then
      let n2 := n + (detailPct d - n)
      let r := scrubLoopAux rest n2
      (n2 :: r.1, r.2)
    else ([], n, some (s, d))

/-- Lines 84-97 of src/main.py: the totals reported to the progress bar over
one supervised session, plus the terminal observation.  On a terminal
`NO_ERRORS` the code runs `_pbar.update(100 - _pbar.n)` (line 92), adding
one final total of `n + (100 - n)`. -/
def scrubReported (obs : List (ScrubStatus × ScanDetail)) :
    List ℚ × Option (ScrubStatus × ScanDetail) :=
  match scrubLoopAux obs 0 with
  | (ts, n, some (.NO_ERRORS, d)) => (ts ++ [n + (100 - n)], some (.NO_ERRORS, d))
  | (ts, _, fin) => (ts, fin)

/-- The percentages of the initial run of `SCANNING` observations of a
trace: exactly the observations the loop at lines 85-90 consumes before
breaking. -/
def scanVals : List (ScrubStatus × ScanDetail) → List ℚ
  | (s, d) :: rest => if s = .SCANNING then detailPct d :: scanVals rest else []
  | [] => []

/-- `main._run_and_monitor_scrub` (src/main.py, lines 79-97).  Line 80 is
`zfs_helpers.start_scrub(zpool_name=..., timeout_seconds=5)`: it first
resolves the attribute `start_scrub` on module `zfs_helpers`.  The module
defines no such attribute (its scan starter is named `run_scrub`), so the
lookup raises `AttributeError` before the progress bar is created; the
branch below in which the lookup succeeds would run the monitor loop. -/
def run_and_monitor_scrub (obs : List (ScrubStatus × ScanDetail)) :
    Except PyExc (List ℚ) :=
  if "start_scrub" ∈ zfsHelpersModuleAttrs then .ok (scrubReported obs).1
  else .error .attributeError

/-- Result of the confirmation loop of `zfs_helpers.run_scrub`:
`started` when a `SCANNING` status is observed, `timeout` for the
`RuntimeError` at line 72, `diverge` when the supplied fuel runs out
before the loop decides (never reached with sufficient fuel). -/
inductive StartResult
  | started
  | timeout
  | diverge
deriving DecidableEq, Repr

/-- The confirmation loop of `zfs_helpers.run_scrub` (src/zfs_helpers.py,
lines 65-74), with idealized timing: each iteration sleeps exactly 0.5
seconds and everything else is instantaneous, so the `k`-th status
observation happens at time `k * (1/2)` and
`time() - _started_at = k * (1/2)` at the `elif` of line 70.  `obs k` is
the status returned by the `k`-th `get_scrub_status` call (1-based);
`T` is `timeout_seconds`. -/
def pollStartAux (T : ℚ) (obs : ℕ → ScrubStatus) : ℕ → ℕ → StartResult
  | 0, _ => .diverge
  | fuel + 1, k =>
    if obs k = .SCANNING then .started
    else if (k : ℚ) * (1 / 2) > T then .timeout
    else pollStartAux T obs fuel (k + 1)

/-- The confirmation loop started at its first observation. -/
def pollStart (T : ℚ) (obs : ℕ → ScrubStatus) (fuel : ℕ) : StartResult :=
  pollStartAux T obs fuel 1

/-! ## Claims about the execution gate -/

/-- The gate at the `day` policy with a present record. -/
lemma gate_day (t now : ℚ) :
    is_execution_necessary "day" (some t) now = true ↔ 86400 ≤ now - t := by
  have hw : ¬(("day" : String) = "week" ∧ now - t < 604800) := by
    rintro ⟨he, -⟩; exact absurd he (by decide)
  have h2 : ¬(("day" : String) = "2weeks" ∧ now - t < 1209600) := by
    rintro ⟨he, -⟩; exact absurd he (by decide)
  have hm : ¬(("day" : String) = "month" ∧ now - t < 2592000) := by
    rintro ⟨he, -⟩; exact absurd he (by decide)
  simp only [is_execution_necessary, if_neg hw, if_neg h2]
  rcases lt_or_le (now - t) 86400 with hlt | hge
  · rw [if_pos ⟨by trivial, hlt⟩]
    simp
    linarith
  · rw [if_neg (fun hc => absurd hc.2 (not_lt.mpr hge)), if_neg hm]
    simp [hge]

/-- The gate at the `week` policy with a present record. -/
lemma gate_week (t now : ℚ) :
    is_execution_necessary "week" (some t) now = true ↔ 604800 ≤ now - t := by
  have h2 : ¬(("week" : String) = "2weeks" ∧ now - t < 1209600) := by
    rintro ⟨he, -⟩; exact absurd he (by decide)
  have hd : ¬(("week" : String) = "day" ∧ now - t < 86400) := by
    rintro ⟨he, -⟩; exact absurd he (by decide)
  have hm : ¬(("week" : String) = "month" ∧ now - t < 2592000) := by
    rintro ⟨he, -⟩; exact absurd he (by decide)
  simp only [is_execution_necessary]
  rcases lt_or_le (now - t) 604800 with hlt | hge
  · rw [if_pos ⟨by trivial, hlt⟩]
    simp
    linarith
  · rw [if_neg (fun hc => absurd hc.2 (not_lt.mpr hge)), if_neg h2, if_neg hd, if_neg hm]
    simp [hge]

/-- The gate at the `2weeks` policy with a present record. -/
lemma gate_2weeks (t now : ℚ) :
    is_execution_necessary "2weeks" (some t) now = true ↔ 1209600 ≤ now - t := by
  have hw : ¬(("2weeks" : String) = "week" ∧ now - t < 604800) := by
    rintro ⟨he, -⟩; exact absurd he (by decide)
  have hd : ¬(("2weeks" : String) = "day" ∧ now - t < 86400) := by
    rintro ⟨he, -⟩; exact absurd he (by decide)
  have hm : ¬(("2weeks" : String) = "month" ∧ now - t < 2592000) := by
    rintro ⟨he, -⟩; exact absurd he (by decide)
  simp only [is_execution_necessary, if_neg hw]
  rcases lt_or_le (now - t) 1209600 with hlt | hge
  · rw [if_pos ⟨by trivial, hlt⟩]
    simp
    linarith
  · rw [if_neg (fun hc => absurd hc.2 (not_lt.mpr hge)), if_neg hd, if_neg hm]
    simp [hge]

/-- The gate at the `month` policy with a present record. -/
lemma gate_month (t now : ℚ) :
    is_execution_necessary "month" (some t) now = true ↔ 2592000 ≤ now - t := by
  have hw : ¬(("month" : String) = "week" ∧ now - t < 604800) := by
    rintro ⟨he, -⟩; exact absurd he (by decide)
  have h2 : ¬(("month" : String) = "2weeks" ∧ now - t < 1209600) := by
    rintro ⟨he, -⟩; exact absurd he (by decide)
  have hd : ¬(("month" : String) = "day" ∧ now - t < 86400) := by
    rintro ⟨he, -⟩; exact absurd he (by decide)
  simp only [is_execution_necessary, if_neg hw, if_neg h2, if_neg hd]
  rcases lt_or_le (now - t) 2592000 with hlt | hge
  · rw [if_pos ⟨by trivial, hlt⟩]
    simp
    linarith
  · rw [if_neg (fun hc => absurd hc.2 (not_lt.mpr hge))]
    simp [hge]

/-- C7: for every named interval policy in {day, week, 2weeks, month} and
every fixed recorded timestamp, `is_execution_necessary` returns true iff
`now - recorded` has reached the policy's fixed duration -- so as `now`
increases the result flips from false to true exactly at
`recorded + policyDuration`, never earlier -- and it returns true whenever
the execution record is absent or unreadable (`last = none`). -/
theorem C7_gate_flips_exactly_at_duration (pol : String) (dur t now : ℚ)
    (h : policyDuration pol = some dur) :
    (is_execution_necessary pol (some t) now = true ↔ dur ≤ now - t)
      ∧ is_execution_necessary pol none now = true := by
  refine ⟨?_, rfl⟩
  have hcases : (pol = "day" ∧ dur = 86400) ∨ (pol = "week" ∧ dur = 604800)
      ∨ (pol = "2weeks" ∧ dur = 1209600) ∨ (pol = "month" ∧ dur = 2592000) := by
    unfold policyDuration at h
    split at h
    · exact Or.inl ⟨rfl, (Option.some_inj.mp h).symm⟩
    · exact Or.inr (Or.inl ⟨rfl, (Option.some_inj.mp h).symm⟩)
    · exact Or.inr (Or.inr (Or.inl ⟨rfl, (Option.some_inj.mp h).symm⟩))
    · exact Or.inr (Or.inr (Or.inr ⟨rfl, (Option.some_inj.mp h).symm⟩))
    · exact absurd h (by simp)
  rcases hcases with ⟨hp, hd⟩ | ⟨hp, hd⟩ | ⟨hp, hd⟩ | ⟨hp, hd⟩ <;> subst hp <;> subst hd
  · exact gate_day t now
  · exact gate_week t now
  · exact gate_2weeks t now
  · exact gate_month t now

/-- Witness for C7 at the `day` policy, recorded time 0, now = 86400. -/
theorem C7_gate_flips_exactly_at_duration_witness :
    is_execution_necessary "day" (some 0) 86400 = true :=
  ((C7_gate_flips_exactly_at_duration "day" 86400 0 86400 rfl).1).mpr (by norm_num)

/-- C10: for every policy-name string outside {day, week, 2weeks, month},
the gate returns true regardless of the record and the current time. -/
theorem C10_unknown_policy_permits_run (pol : String)
    (h : pol ∉ (["day", "week", "2weeks", "month"] : List String))
    (last : Option ℚ) (now : ℚ) :
    is_execution_necessary pol last now = true := by
  simp only [List.mem_cons, List.mem_singleton, not_or] at h
  obtain ⟨hd, hw, h2, hm⟩ := by simpa using h
  cases last with
  | none => rfl
  | some t => simp [is_execution_necessary, hd, hw, h2, hm]

/-- Witness for C10 at the unknown policy name `year`. -/
theorem C10_unknown_policy_permits_run_witness :
    is_execution_necessary "year" (some 0) 0 = true :=
  C10_unknown_policy_permits_run "year" (by decide) (some 0) 0

/-! ## Claims about the status parser -/

/-- C5: for every status text whose percentage-token scan yields exactly one
captured token `g` with value in [0, 100], `get_scrub_status` returns
`SCANNING` with exactly that value as progress. -/
theorem C5_single_token_yields_scanning (s g : List Char)
    (hf : findallPct s = [g]) (_h0 : 0 ≤ pctVal g) (_h100 : pctVal g ≤ 100) :
    get_scrub_status s = .ok (.SCANNING, .pct (pctVal g)) := by
  unfold get_scrub_status
  rw [hf]

/-- The value of the token of the spec's scenario text. -/
lemma pctVal_1234 : pctVal "12.34".data = mkRat 1234 100 := by
  show 10 * digitVal '1' + digitVal '2' + digitVal '3' / 10 + digitVal '4' / 100
      = mkRat 1234 100
  have h1 : digitVal '1' = ((1 : ℕ) : ℚ) := rfl
  have h2 : digitVal '2' = ((2 : ℕ) : ℚ) := rfl
  have h3 : digitVal '3' = ((3 : ℕ) : ℚ) := rfl
  have h4 : digitVal '4' = ((4 : ℕ) : ℚ) := rfl
  rw [h1, h2, h3, h4]
  norm_num

/-- Witness for C5 on the spec's scenario text, whose single token is
`12.34`. -/
theorem C5_single_token_yields_scanning_witness :
    get_scrub_status "scan: scrub in progress since Sun\n  12.34% done".data
      = .ok (.SCANNING, .pct (pctVal "12.34".data)) :=
  C5_single_token_yields_scanning _ _ (by decide)
    (by rw [pctVal_1234]; norm_num) (by rw [pctVal_1234]; norm_num)

/-- C6: for every status text with two or more percentage tokens, or with
zero percentage tokens and no `errors:` line, `get_scrub_status` fails
with the malformed-status error (and never returns a scan state). -/
theorem C6_malformed_status_error (s : List Char)
    (h : 2 ≤ (findallPct s).length ∨ (findallPct s = [] ∧ findErrorsLine s = none)) :
    get_scrub_status s = .error .malformed := by
  unfold get_scrub_status
  rcases h with h2 | ⟨h0, he⟩
  · rcases hf : findallPct s with _ | ⟨g, _ | ⟨g2, rest⟩⟩
    · rw [hf] at h2; simp at h2
    · rw [hf] at h2; simp at h2
    · rfl
  · rw [h0, he]

/-- Witness for C6: a text with two percentage tokens, and a text with no
token and no `errors:` line. -/
theorem C6_malformed_status_error_witness :
    get_scrub_status "  12.34% done, 56.78% left".data = .error .malformed
      ∧ get_scrub_status "pool: tank\nstate: ONLINE".data = .error .malformed :=
  ⟨C6_malformed_status_error _ (Or.inl (by decide)),
   C6_malformed_status_error _ (Or.inr (by decide))⟩

/-- C4 as stated is false: on a status text with zero percentage tokens and
an `errors:` line, `get_scrub_status` classifies by the captured remainder
but returns the WHOLE raw text as its detail (`_result.stdout` at
src/zfs_helpers.py lines 51 and 53), not the captured remainder.  Here the
captured remainder is `No known data errors` while the returned detail is
the full line including the `errors:` marker. -/
theorem C4_counterexample :
    get_scrub_status "errors: No known data errors".data
        = .ok (.NO_ERRORS, .raw "errors: No known data errors".data)
      ∧ findErrorsLine "errors: No known data errors".data
        = some "No known data errors".data
      ∧ ScanDetail.raw "errors: No known data errors".data
        ≠ ScanDetail.raw "No known data errors".data :=
  ⟨rfl, by decide, by decide⟩

/-- C4 amended: for every status text with zero percentage tokens and an
`errors:` line, `get_scrub_status` returns `NO_ERRORS` if the captured
remainder of that line starts with `no ` (case-insensitive) and `ERRORS`
otherwise; in both cases the returned raw detail is the entire status
text (not the captured remainder). -/
theorem C4_errors_line_classification (s g : List Char) (hf : findallPct s = [])
    (he : findErrorsLine s = some g) :
    get_scrub_status s
      = .ok (if startsWithNo g then (.NO_ERRORS, .raw s) else (.ERRORS, .raw s)) := by
  unfold get_scrub_status
  rw [hf, he]
  by_cases h : startsWithNo g <;> simp [h]

/-- Witness for the amended C4 on the spec's with-errors scenario line. -/
theorem C4_errors_line_classification_witness :
    get_scrub_status "errors: 3 data errors, use '-v' for a list".data
      = .ok (.ERRORS, .raw "errors: 3 data errors, use '-v' for a list".data) := by
  have h := C4_errors_line_classification
    "errors: 3 data errors, use '-v' for a list".data
    "3 data errors, use '-v' for a list".data (by decide) (by decide)
  rw [h, if_neg (by decide)]

/-! ## Claims about the supervision loop -/

/-- C1: every call of `_run_and_monitor_scrub` fails before reporting any
progress, because line 80 of src/main.py resolves the attribute
`start_scrub` on module `zfs_helpers`, which the module does not define
(its scan starter is `run_scrub`): the delegation the claim describes
never happens, and the call raises `AttributeError` for every pool. -/
theorem C1_start_delegation_is_broken (obs : List (ScrubStatus × ScanDetail)) :
    run_and_monitor_scrub obs = .error .attributeError
      ∧ "start_scrub" ∉ zfsHelpersModuleAttrs :=
  ⟨rfl, by decide⟩

/-- C2 is violated by the code: with discovered pools `["tank"]` and the
selected pool `ghost` (not in the list), the `__main__` block logs at line
161 but, lacking an `exit(1)`, falls through and reaches the
`_run_and_monitor_scrub`/`write_last_execution_time` calls with the
unknown pool instead of exiting with code 1. -/
theorem C2_missing_pool_validation_falls_through :
    ("ghost" ∉ (["tank"] : List String))
      ∧ mainFlow false false false ["tank"] false true none none 0 (some "ghost")
          = .runScrub "ghost"
      ∧ mainFlow false false false ["tank"] false true none none 0 (some "ghost")
          ≠ .exitWith 1 :=
  ⟨by decide, rfl, by decide⟩

/-- The totals reported by the polling loop are exactly the observed
percentages of the initial `SCANNING` run: `_pbar.update(v - n)` sets the
total to `n + (v - n) = v`, whatever the previous total was. -/
lemma scrubLoopAux_fst (obs : List (ScrubStatus × ScanDetail)) (n : ℚ) :
    (scrubLoopAux obs n).1 = scanVals obs := by
  induction obs generalizing n with
  | nil => rfl
  | cons o rest ih =>
    obtain ⟨s, d⟩ := o
    by_cases hs : s = .SCANNING
    · have hv : n + (detailPct d - n) = detailPct d := by ring
      simp [scrubLoopAux, scanVals, hs, hv, ih]
    · simp [scrubLoopAux, scanVals, hs]

/-- A session trace whose second observation regresses from 50% to 40%. -/
def obsRegress : List (ScrubStatus × ScanDetail) :=
  [(.SCANNING, .pct 50), (.SCANNING, .pct 40), (.NO_ERRORS, .raw [])]

/-- C3 as stated is false: the loop at src/main.py line 89 reports the raw
increment `_addval - _pbar.n` with no clamping, so a regressing
observation decreases the reported total.  On the trace 50%, 40%,
no-errors the reported totals are 50, 40, 100 -- not non-decreasing. -/
theorem C3_counterexample :
    (scrubReported obsRegress).1 = [50, 40, 100]
      ∧ ¬ List.Chain' (fun a b => a ≤ b) (scrubReported obsRegress).1 := by
  have h : (scrubReported obsRegress).1 = [50, 40, 100] := by
    show ([(0 : ℚ) + (50 - 0), (0 + (50 - 0)) + (40 - (0 + (50 - 0)))]
        ++ [((0 + (50 - 0)) + (40 - (0 + (50 - 0))))
            + (100 - ((0 + (50 - 0)) + (40 - (0 + (50 - 0)))))]) = [50, 40, 100]
    norm_num
  refine ⟨h, ?_⟩
  rw [h]
  intro hch
  exact absurd (List.chain'_cons.mp hch).1 (by norm_num)

/-- C3 amended: the reported increment is `newPercent - lastKnownPercent`
WITHOUT clamping, so the reported total always equals the latest observed
percentage.  Consequently, whenever the observed `SCANNING` percentages
are themselves non-decreasing and at most 100, the totals reported to the
sink are non-decreasing; and when the loop ends at a `NO_ERRORS` terminal
observation the final reported total is forced to exactly 100. -/
theorem C3_unclamped_progress_reporting (obs : List (ScrubStatus × ScanDetail))
    (hmono : List.Chain' (fun a b => a ≤ b) (scanVals obs))
    (hle : ∀ v ∈ scanVals obs, v ≤ 100) :
    List.Chain' (fun a b => a ≤ b) (scrubReported obs).1
      ∧ (∀ d, (scrubReported obs).2 = some (.NO_ERRORS, d) →
          (scrubReported obs).1.getLast? = some 100) := by
  rcases hrep : scrubLoopAux obs 0 with ⟨ts, n, fin⟩
  have hts : ts = scanVals obs := by
    have := scrubLoopAux_fst obs 0
    rw [hrep] at this
    exact this
  subst hts
  have h100 : n + (100 - n) = (100 : ℚ) := by ring
  unfold scrubReported
  rw [hrep]
  match fin with
  | none =>
    exact ⟨hmono, by intro d hd; simp at hd⟩
  | some (.SCANNING, d) =>
    exact ⟨hmono, by intro d2 hd; simp at hd⟩
  | some (.ERRORS, d) =>
    exact ⟨hmono, by intro d2 hd; simp at hd⟩
  | some (.NO_ERRORS, d) =>
    refine ⟨?_, ?_⟩
    · show List.Chain' (fun a b => a ≤ b) (scanVals obs ++ [n + (100 - n)])
      rw [h100, List.chain'_append]
      refine ⟨hmono, List.chain'_singleton 100, ?_⟩
      intro x hx y hy
      obtain ⟨hne, hxl⟩ := List.mem_getLast?_eq_getLast hx
      simp at hy
      subst hy
      exact hle x (hxl ▸ List.getLast_mem hne)
    · intro d2 _
      show (scanVals obs ++ [n + (100 - n)]).getLast? = some 100
      rw [h100, List.getLast?_concat]

/-- A well-behaved session trace: 30%, 60%, then clean completion. -/
def obsMono : List (ScrubStatus × ScanDetail) :=
  [(.SCANNING, .pct 30), (.SCANNING, .pct 60), (.NO_ERRORS, .raw [])]

/-- Witness for the amended C3 on a monotone trace ending without errors. -/
theorem C3_unclamped_progress_reporting_witness :
    List.Chain' (fun a b => a ≤ b) (scrubReported obsMono).1
      ∧ (scrubReported obsMono).1.getLast? = some 100 := by
  have h := C3_unclamped_progress_reporting obsMono
    (by rw [show scanVals obsMono = [30, 60] from rfl]; norm_num [List.chain'_cons])
    (by rw [show scanVals obsMono = [30, 60] from rfl]; norm_num)
  exact ⟨h.1, h.2 (.raw []) rfl⟩

/-! ## Bounds on parsed percentages (C9) -/

/-- Branch characterization: exactly one captured token. -/
lemma gss_single (s g : List Char) (hf : findallPct s = [g]) :
    get_scrub_status s = .ok (.SCANNING, .pct (pctVal g)) := by
  unfold get_scrub_status
  rw [hf]

/-- Branch characterization: no token, an `errors:` line. -/
lemma gss_none_some (s g : List Char) (hf : findallPct s = [])
    (he : findErrorsLine s = some g) :
    get_scrub_status s
      = if startsWithNo g then .ok (.NO_ERRORS, .raw s) else .ok (.ERRORS, .raw s) := by
  unfold get_scrub_status
  rw [hf, he]

/-- Branch characterization: no token and no `errors:` line. -/
lemma gss_none_none (s : List Char) (hf : findallPct s = [])
    (he : findErrorsLine s = none) :
    get_scrub_status s = .error .malformed := by
  unfold get_scrub_status
  rw [hf, he]

/-- Branch characterization: two or more captured tokens. -/
lemma gss_many (s g1 g2 : List Char) (rest : List (List Char))
    (hf : findallPct s = g1 :: g2 :: rest) :
    get_scrub_status s = .error .malformed := by
  unfold get_scrub_status
  rw [hf]

/-- A digit character accepted by the pattern has value in [0, 9]. -/
lemma digitVal_bounds (c : Char) (hc : isDigitCh c = true) :
    0 ≤ digitVal c ∧ digitVal c ≤ 9 := by
  have h : c.toNat - 48 ≤ 9 := by
    simp only [isDigitCh, Bool.and_eq_true, decide_eq_true_eq] at hc
    omega
  constructor
  · show (0 : ℚ) ≤ ((c.toNat - 48 : ℕ) : ℚ)
    exact Nat.cast_nonneg _
  · show ((c.toNat - 48 : ℕ) : ℚ) ≤ 9
    exact_mod_cast h

/-- A digit character is never the dot. -/
lemma isDigitCh_ne_dot (c : Char) (hc : isDigitCh c = true) : c ≠ '.' := by
  intro he
  subst he
  exact absurd hc (by decide)

/-- The fractional part matched by `matchFracPct` is one or two digits. -/
lemma matchFracPct_shape (cs fr rest : List Char)
    (h : matchFracPct cs = some (fr, rest)) :
    (∃ c d, fr = [c, d] ∧ isDigitCh c = true ∧ isDigitCh d = true)
      ∨ (∃ c, fr = [c] ∧ isDigitCh c = true) := by
  rcases cs with _ | ⟨c, _ | ⟨d, _ | ⟨e, r⟩⟩⟩
  · exact Option.noConfusion h
  · exact Option.noConfusion h
  · simp only [matchFracPct] at h
    split_ifs at h with h1
    all_goals first
      | exact Option.noConfusion h
      | (simp only [Option.some_inj, Prod.mk.injEq] at h
         exact Or.inr ⟨c, h.1.symm, h1.1⟩)
  · simp only [matchFracPct] at h
    split_ifs at h
    all_goals first
      | exact Option.noConfusion h
      | (simp only [Option.some_inj, Prod.mk.injEq] at h
         first
           | exact Or.inl ⟨c, d, h.1.symm, ‹isDigitCh c = true›, ‹isDigitCh d = true›⟩
           | exact Or.inr ⟨c, h.1.symm, ‹isDigitCh c = true›⟩)

/-- Any group captured by the percentage pattern has value in [0, 99.99]:
the pattern admits at most two integer digits and two fractional digits. -/
lemma matchPctAt_val_bounds (cs g rest : List Char)
    (h : matchPctAt cs = some (g, rest)) :
    0 ≤ pctVal g ∧ pctVal g ≤ 9999 / 100 := by
  rcases cs with _ | ⟨a, _ | ⟨b, _ | ⟨c, r⟩⟩⟩
  · exact Option.noConfusion h
  · exact Option.noConfusion h
  · exact Option.noConfusion h
  · simp only [matchPctAt] at h
    split_ifs at h with ha hb hdot
    · -- two integer digits, then the fractional part
      rcases hfr : matchFracPct r with _ | ⟨fr, rem⟩ <;> rw [hfr] at h
      · exact Option.noConfusion h
      · have h2 : (some (a :: b :: '.' :: fr, rem) : Option (List Char × List Char))
            = some (g, rest) := h
        simp only [Option.some_inj, Prod.mk.injEq] at h2
        obtain ⟨hg, -⟩ := h2
        subst hg
        rcases matchFracPct_shape r fr rem hfr with ⟨x, y, hfr2, hx, hy⟩ | ⟨x, hfr1, hx⟩
        · subst hfr2
          simp only [pctVal]
          obtain ⟨ha0, ha9⟩ := digitVal_bounds a ha
          obtain ⟨hb0, hb9⟩ := digitVal_bounds b hb
          obtain ⟨hx0, hx9⟩ := digitVal_bounds x hx
          obtain ⟨hy0, hy9⟩ := digitVal_bounds y hy
          constructor <;> nlinarith
        · subst hfr1
          simp only [pctVal]
          rw [if_neg (isDigitCh_ne_dot b hb)]
          obtain ⟨ha0, ha9⟩ := digitVal_bounds a ha
          obtain ⟨hb0, hb9⟩ := digitVal_bounds b hb
          obtain ⟨hx0, hx9⟩ := digitVal_bounds x hx
          constructor <;> nlinarith
    · -- one integer digit, then the fractional part
      rcases hfr : matchFracPct (c :: r) with _ | ⟨fr, rem⟩ <;> rw [hfr] at h
      · exact Option.noConfusion h
      · have h2 : (some (a :: '.' :: fr, rem) : Option (List Char × List Char))
            = some (g, rest) := h
        simp only [Option.some_inj, Prod.mk.injEq] at h2
        obtain ⟨hg, -⟩ := h2
        subst hg
        rcases matchFracPct_shape (c :: r) fr rem hfr with ⟨x, y, hfr2, hx, hy⟩ | ⟨x, hfr1, hx⟩
        · subst hfr2
          simp only [pctVal, if_true]
          obtain ⟨ha0, ha9⟩ := digitVal_bounds a ha
          obtain ⟨hx0, hx9⟩ := digitVal_bounds x hx
          obtain ⟨hy0, hy9⟩ := digitVal_bounds y hy
          constructor <;> nlinarith
        · subst hfr1
          simp only [pctVal]
          obtain ⟨ha0, ha9⟩ := digitVal_bounds a ha
          obtain ⟨hx0, hx9⟩ := digitVal_bounds x hx
          constructor <;> nlinarith

/-- Every group produced by the findall scan comes from a `matchPctAt`
match at some position. -/
lemma findallPctAux_mem (fuel : ℕ) (cs g : List Char)
    (h : g ∈ findallPctAux fuel cs) :
    ∃ cs2 rest, matchPctAt cs2 = some (g, rest) := by
  induction fuel generalizing cs with
  | zero => simp [findallPctAux] at h
  | succ fuel ih =>
    rcases cs with _ | ⟨c, cs2⟩
    · simp [findallPctAux] at h
    · simp only [findallPctAux] at h
      rcases hm : matchPctAt (c :: cs2) with _ | ⟨g0, rest⟩ <;> rw [hm] at h
      · exact ih cs2 (by simpa using h)
      · simp only [List.mem_cons] at h
        rcases h with h | h
        · exact ⟨c :: cs2, rest, by rw [hm, h]⟩
        · exact ih rest (by simpa using h)

/-- C9: whenever `get_scrub_status` returns `SCANNING`, the progress lies in
[0, 99.99] -- the pattern admits at most two integer digits, so 100% is
never representable; in particular, on a text whose only percentage-like
token is `100.00%` the pattern matches the trailing `00.00%` and the
result is `SCANNING` with progress 0. -/
theorem C9_scanning_progress_capped :
    (∀ (s : List Char) (p : ℚ), get_scrub_status s = .ok (.SCANNING, .pct p) →
        0 ≤ p ∧ p ≤ 9999 / 100)
      ∧ get_scrub_status "scan: 100.00% done".data
          = .ok (.SCANNING, .pct (pctVal "00.00".data))
      ∧ pctVal "00.00".data = 0 := by
  refine ⟨?_, rfl, ?_⟩
  · intro s p h
    rcases hf : findallPct s with _ | ⟨g, _ | ⟨g2, rest⟩⟩
    · rcases he : findErrorsLine s with _ | g
      · rw [gss_none_none s hf he] at h
        exact Except.noConfusion h
      · rw [gss_none_some s g hf he] at h
        split_ifs at h <;>
          · injection h with h1
            injection h1 with h2 h3
            exact ScrubStatus.noConfusion h2
    · rw [gss_single s g hf] at h
      injection h with h1
      injection h1 with h2 h3
      have hp : p = pctVal g := by
        injection h3.symm with h4
        try exact h4
      subst hp
      have hg : g ∈ findallPctAux s.length s := by
        rw [show findallPctAux s.length s = findallPct s from rfl, hf]
        exact List.mem_singleton_self g
      obtain ⟨cs2, rest2, hm⟩ := findallPctAux_mem s.length s g hg
      exact matchPctAt_val_bounds cs2 g rest2 hm
    · rw [gss_many s g g2 rest hf] at h
      exact Except.noConfusion h
  · show 10 * digitVal '0' + digitVal '0' + digitVal '0' / 10 + digitVal '0' / 100 = 0
    rw [show digitVal '0' = ((0 : ℕ) : ℚ) from rfl]
    norm_num

/-- Witness for C9 on a text whose single token is `7.5`. -/
theorem C9_scanning_progress_capped_witness :
    0 ≤ pctVal "7.5".data ∧ pctVal "7.5".data ≤ 9999 / 100 :=
  C9_scanning_progress_capped.1 "scan:   7.5% done".data (pctVal "7.5".data) rfl

/-! ## The scan-start confirmation loop (C8) -/

/-- The `k`-th observation happens at time `k * (1/2)`; the `elif` at line 70
fires iff that exceeds the budget, i.e. iff `k > 2T`. -/
lemma pollTime_gt_iff (T : ℚ) (k : ℕ) :
    ((k : ℚ) * (1 / 2) > T) ↔ (2 * T < (k : ℚ)) := by
  constructor <;> intro <;> linarith

/-- Characterization of the confirmation loop from observation `k` onward:
with `K = ⌊2T⌋ + 1` the first observation index past the budget, and
enough fuel, the loop times out iff observations `k .. K` are all
non-`SCANNING`, and it always decides (never hits the fuel bound). -/
lemma pollStartAux_spec (T : ℚ) (obs : ℕ → ScrubStatus) (hT : 0 ≤ T) :
    ∀ fuel k, 1 ≤ k → k ≤ Nat.floor (2 * T) + 1 →
      Nat.floor (2 * T) + 2 - k ≤ fuel →
      (pollStartAux T obs fuel k = .timeout ↔
        ∀ j, k ≤ j → j ≤ Nat.floor (2 * T) + 1 → obs j ≠ .SCANNING)
      ∧ pollStartAux T obs fuel k ≠ .diverge := by
  have h2T : (0 : ℚ) ≤ 2 * T := by linarith
  intro fuel
  induction fuel with
  | zero =>
    intro k hk1 hkK hf
    omega
  | succ fuel ih =>
    intro k hk1 hkK hf
    simp only [pollStartAux]
    by_cases hobs : obs k = .SCANNING
    · rw [if_pos hobs]
      refine ⟨⟨fun hst => absurd hst (by simp), fun hall => absurd hobs (hall k le_rfl hkK)⟩,
        by simp⟩
    · rw [if_neg hobs]
      by_cases htime : (k : ℚ) * (1 / 2) > T
      · rw [if_pos htime]
        have hkK2 : Nat.floor (2 * T) + 1 ≤ k := by
          have hgt : 2 * T < (k : ℚ) := (pollTime_gt_iff T k).mp htime
          by_contra hcon
          push_neg at hcon
          have hle : k ≤ Nat.floor (2 * T) := by omega
          have : (k : ℚ) ≤ 2 * T := (Nat.le_floor_iff h2T).mp hle
          linarith
        have hkeq : k = Nat.floor (2 * T) + 1 := le_antisymm hkK hkK2
        refine ⟨⟨fun _ j hj1 hj2 => ?_, fun _ => rfl⟩, by simp⟩
        have : j = k := by omega
        rw [this]
        exact hobs
      · rw [if_neg htime]
        have hklt : k < Nat.floor (2 * T) + 1 := by
          have hle2 : (k : ℚ) ≤ 2 * T := by
            have := (not_iff_not.mpr (pollTime_gt_iff T k)).mp htime
            push_neg at this
            exact this
          have : k ≤ Nat.floor (2 * T) := Nat.le_floor hle2
          omega
        have ihk := ih (k + 1) (by omega) (by omega) (by omega)
        refine ⟨?_, ihk.2⟩
        rw [ihk.1]
        constructor
        · intro hall j hj1 hj2
          rcases Nat.eq_or_lt_of_le hj1 with heq | hlt
          · rw [← heq]
            exact hobs
          · exact hall j hlt hj2
        · intro hall j hj1 hj2
          exact hall j (by omega) hj2

/-- C8's amended characterization: with idealized timing, the start loop
raises the timeout error iff every observation up to and including the
FIRST one taken after the budget has elapsed (observation indices `k`
with `(k : ℚ) ≤ 2T + 1`, i.e. times up to `T + 1/2`) is non-`SCANNING`;
in particular a `SCANNING` observation within the budget always yields
success, but so does one at the first poll just after the budget.  The
fuel hypothesis only guarantees the finite observation prefix supplied is
long enough for the loop to decide. -/
theorem C8_timeout_iff_no_scanning_through_first_late_poll (T : ℚ)
    (obs : ℕ → ScrubStatus) (fuel : ℕ)
    (hT : 0 ≤ T) (hfuel : 2 * T + 2 ≤ (fuel : ℚ)) :
    (pollStart T obs fuel = .timeout ↔
      ∀ k : ℕ, 1 ≤ k → (k : ℚ) ≤ 2 * T + 1 → obs k ≠ .SCANNING)
    ∧ pollStart T obs fuel ≠ .diverge := by
  have h2T : (0 : ℚ) ≤ 2 * T := by linarith
  have hKfuel : Nat.floor (2 * T) + 2 ≤ fuel := by
    have hfl : ((Nat.floor (2 * T) : ℕ) : ℚ) ≤ 2 * T := Nat.floor_le h2T
    have : ((Nat.floor (2 * T) + 2 : ℕ) : ℚ) ≤ (fuel : ℚ) := by
      push_cast
      linarith
    exact_mod_cast this
  have hdom : ∀ k : ℕ, (k ≤ Nat.floor (2 * T) + 1) ↔ ((k : ℚ) ≤ 2 * T + 1) := by
    intro k
    constructor
    · intro hk
      have hfl : ((Nat.floor (2 * T) : ℕ) : ℚ) ≤ 2 * T := Nat.floor_le h2T
      have : ((k : ℕ) : ℚ) ≤ ((Nat.floor (2 * T) + 1 : ℕ) : ℚ) := by exact_mod_cast hk
      push_cast at this
      linarith
    · intro hk
      have : k ≤ Nat.floor (2 * T + 1) := Nat.le_floor hk
      rwa [Nat.floor_add_one h2T] at this
  have hspec := pollStartAux_spec T obs hT fuel 1 le_rfl (by omega) (by omega)
  refine ⟨?_, hspec.2⟩
  rw [show pollStart T obs fuel = pollStartAux T obs fuel 1 from rfl, hspec.1]
  constructor
  · intro hall k hk1 hk2
    exact hall k hk1 ((hdom k).mpr hk2)
  · intro hall k hk1 hk2
    exact hall k hk1 ((hdom k).mp hk2)

/-- A status stream that is non-`SCANNING` at every in-budget observation
(for budget 5 and interval 1/2: observations 1..10, at times 0.5 .. 5.0)
but reports `SCANNING` at observation 11, the first poll after the budget
(time 5.5). -/
def obsLate (k : ℕ) : ScrubStatus := if k = 11 then .SCANNING else .NO_ERRORS

/-- An always-completed status stream (e.g. a stale `CompletedNoErrors`
from a prior scan). -/
def obsNever (_ : ℕ) : ScrubStatus := .NO_ERRORS

/-- C8's iff, as stated, is false: with budget `T = 5` every observation
during the entire start budget -- observations 1..10, the ones at times
`k * (1/2) ≤ 5` -- is non-`SCANNING` (second conjunct, checked over the
whole in-budget index range), yet the loop returns success rather than the
timeout error, because the `SCANNING` check at line 68 precedes the
deadline check at line 70 and observation 11 (time 5.5, already past the
budget) reports `SCANNING`. -/
theorem C8_counterexample :
    pollStart 5 obsLate 12 = .started
      ∧ pollStart 5 obsLate 12 ≠ .timeout
      ∧ ((List.range 10).map (fun i => obsLate (i + 1))).all
          (fun s => s != ScrubStatus.SCANNING) = true := by
  have hK : Nat.floor ((2 : ℚ) * 5) = 10 := by norm_num
  have hspec := pollStartAux_spec 5 obsLate (by norm_num) 12 1
    le_rfl (by rw [hK]; omega) (by rw [hK]; omega)
  have hps : pollStart 5 obsLate 12 = pollStartAux 5 obsLate 12 1 := rfl
  have hnt : pollStart 5 obsLate 12 ≠ .timeout := by
    rw [hps]
    intro ht
    have hall := hspec.1.mp ht
    have h11 : 11 ≤ Nat.floor ((2 : ℚ) * 5) + 1 := by rw [hK]
    exact absurd (show obsLate 11 = .SCANNING from rfl) (hall 11 (by omega) h11)
  refine ⟨?_, hnt, by decide⟩
  rcases hres : pollStart 5 obsLate 12 with _ | _ | _
  · rfl
  · exact absurd hres hnt
  · rw [hps] at hres
    exact absurd hres hspec.2

/-- Witness for the amended C8: a stream that never reports `SCANNING`
times out with budget 5 and fuel 12. -/
theorem C8_timeout_iff_no_scanning_through_first_late_poll_witness :
    pollStart 5 obsNever 12 = .timeout :=
  (C8_timeout_iff_no_scanning_through_first_late_poll 5 obsNever 12
      (by norm_num) (by norm_num)).1.mpr
    (fun _ _ _ hc => ScrubStatus.noConfusion hc)

end ZpoolScrubMonitor
